import Mathlib

/-!
Verification of the `response_channel` crate (a wrapper around tokio mpsc /
oneshot channels providing bidirectional "response" channels).

The development shallowly embeds the crate's data model and operations:

* `Chan` models a bounded `tokio::sync::mpsc` channel (capacity fixed at
  creation, FIFO queue, a count of live producer handles, and whether the
  consumer handle is still alive).  `Chan.sendOutcome` / `Chan.recvOutcome`
  model one completed (or suspended) `send(..).await` / `recv().await`.
* `OneShot` models a `tokio::sync::oneshot` channel.
* `Error` models `src/error/mod.rs`.
* `Sender` models the permanent variant's `Sender<M, R>` struct
  (`src/lib.rs` = `src/permanent/mod.rs`): fields `tx` (the forward
  channel), and `reverse` (the private reply channel, of which the sender
  owns both the producer handle `reverse_tx` — counted in
  `reverse.txCount` — and the sole consumer handle `reverse_rx`).
* `TSender` models the temporary variant's `Sender<M, R>`
  (`src/temporary/mod.rs`).
* `Sys` is a small-step transition system for a permanent channel shared by
  any number of cloned senders, used for the clone-isolation properties.
* `RSys` is a small-step transition system for the round-trip usage pattern
  (each sender repeatedly calls `send_await_automatic`, the receiver loop
  replies `f m` to each message `m` in arrival order).

Asynchronous suspension is made explicit: an operation that would suspend
(queue full on send, queue empty with live producers on recv) returns a
distinguished `pending` / `blocked` outcome instead of a value.
-/

namespace ResponseChannel

/-- Model of a bounded `tokio::sync::mpsc` channel.  `capacity` is the
buffer size fixed at creation (`Sender::max_capacity` returns it),
`queue` the buffered items front-first, `txCount` the number of live
producer (`mpsc::Sender`) handles, `rxAlive` whether the unique consumer
(`mpsc::Receiver`) handle is still alive. -/
structure Chan (α : Type) where
  capacity : Nat
  queue : List α
  txCount : Nat
  rxAlive : Bool
deriving DecidableEq, Repr

/-- Outcome of one `mpsc::Sender::send(a).await`:  accepted (`sent`, with
the updated channel), failed because the consumer is gone (`closed`,
returning the item inside the `SendError`), or suspended because the
queue is full (`blocked`). -/
inductive SendRes (α : Type) where
  | sent (c : Chan α)
  | closed (a : α)
  | blocked
deriving DecidableEq, Repr

/-- Outcome of one `mpsc::Receiver::recv().await`: a value (`got`), the
end-of-stream `None` (`closed`, only once the queue is drained and every
producer handle is dropped), or suspended (`blocked`). -/
inductive RecvRes (α : Type) where
  | got (a : α) (c : Chan α)
  | closed
  | blocked
deriving DecidableEq, Repr

/-- Semantics of `mpsc::Sender::send(a).await` on the channel state: tokio
returns `Err(SendError(a))` when the receiver has been dropped, enqueues
when there is spare capacity, and otherwise suspends the caller. -/
def Chan.sendOutcome (c : Chan α) (a : α) : SendRes α :=
  if c.rxAlive = false then .closed a
  else if c.queue.length < c.capacity then
    .sent { c with queue := c.queue ++ [a] }
  else .blocked

/-- Semantics of `mpsc::Receiver::recv().await`: buffered values are
delivered in FIFO order (even after producers dropped), `None` is returned
only when the queue is empty and every producer handle is dropped, and an
empty queue with a live producer suspends the caller. -/
def Chan.recvOutcome (c : Chan α) : RecvRes α :=
  match c.queue with
  | a :: rest => .got a { c with queue := rest }
  | [] => if c.txCount = 0 then .closed else .blocked

/-- A freshly created channel: empty queue, one producer handle and a live
consumer handle (the `(tx, rx)` pair returned by `mpsc::channel`). -/
def Chan.new (α : Type) (capacity : Nat) : Chan α :=
  { capacity := capacity, queue := [], txCount := 1, rxAlive := true }

/-- Model of `tokio::sync::mpsc::channel(buffer)`.  tokio panics when
`buffer` is zero; the panic is modelled as `none`. -/
def mpscChannel (α : Type) (buffer : Nat) : Option (Chan α) :=
  if buffer = 0 then none else some (Chan.new α buffer)

/-- Model of `tokio::sync::oneshot`: `value` is the written value (if any)
and `txAlive` whether the write side (`oneshot::Sender`) is still alive. -/
structure OneShot (R : Type) where
  value : Option R
  txAlive : Bool
deriving DecidableEq, Repr

/-- Outcome of awaiting a `oneshot::Receiver`. -/
inductive OneShotRes (R : Type) where
  | ok (r : R)
  | err
  | pending
deriving DecidableEq, Repr

/-- Semantics of awaiting a `oneshot::Receiver`: the written value if one
was sent, `Err(RecvError(()))` if the write side was dropped without
writing, otherwise the await suspends. -/
def OneShot.awaitOutcome (o : OneShot R) : OneShotRes R :=
  match o.value with
  | some r => .ok r
  | none => if o.txAlive then .pending else .err

/-- Model of the crate's error enum (`src/error/mod.rs`): `SendError`
wraps `tokio::sync::mpsc::error::SendError<M>` (which carries the unsent
message), `RecvError` wraps the payload-free
`tokio::sync::oneshot::error::RecvError`. -/
inductive Error (M : Type) where
  | SendError (m : M)
  | RecvError
deriving DecidableEq, Repr

/-- Model of `impl Debug for Error` (`src/error/mod.rs` lines 66-70): the
body is `write!(f, "{:?}", self)`, and the `{:?}` format of `self` invokes
the very same `Debug::fmt` on the very same value.  `fuel` bounds the
number of nested calls (the call stack); a result of `none` means the
given number of frames was exhausted without any string being produced. -/
def Error.fmtDebug (e : Error M) : Nat → Option String
  | 0 => none
  | fuel + 1 => Error.fmtDebug e fuel

/-- Model of the crate's `PartialEq` for `Error` (`src/error/mod.rs`):
two `SendError`s compare by message, two `RecvError`s are equal, mixed
variants are unequal. -/
def Error.eqImpl [DecidableEq M] : Error M → Error M → Bool
  | .SendError m, .SendError m2 => m = m2
  | .RecvError, .RecvError => true
  | _, _ => false

/-! ## Permanent variant (`src/lib.rs`, identical to `src/permanent/mod.rs`) -/

/-- Stand-in for a clone of the sender's `reverse_tx` handle carried inside
a forward-channel entry.  In this single-sender view all clones target the
one reply channel, so the handle itself carries no information (the
multi-sender system `Sys` below tracks handle targets explicitly). -/
abbrev ReverseTxClone : Type := Unit

/-- Model of the permanent variant's `Sender<M, R>` struct.  `tx` is the
forward channel (the struct's `tx: mpsc::Sender<(M, mpsc::Sender<R>)>`
producer handle, together with the channel state it refers to).  `reverse`
is the private reply channel: the struct's `reverse_tx` field is one of
the producer handles counted in `reverse.txCount`, and its `reverse_rx`
field is the channel's unique consumer handle. -/
structure Sender (M R : Type) where
  tx : Chan (M × ReverseTxClone)
  reverse : Chan R
deriving DecidableEq, Repr

/-- Outcome of the permanent `Sender::send_await`. -/
inductive SendAwaitRes (M R : Type) where
  | ok (s : Sender M R)
  | err (e : Error M)
  | pending
deriving DecidableEq, Repr

/-- Model of the permanent `Sender::send_await` (`src/lib.rs` lines
136-144): push `(message, self.reverse_tx.clone())` onto the forward
channel; on failure, `map_err` rebuilds `SendError` around the message
alone (dropping the returned handle clone); on success the handle clone
now lives in the forward queue, so the reply channel gains a producer. -/
def Sender.send_await (s : Sender M R) (m : M) : SendAwaitRes M R :=
  match s.tx.sendOutcome (m, ()) with
  | .sent tx2 =>
    .ok { s with
            tx := tx2
            reverse := { s.reverse with txCount := s.reverse.txCount + 1 } }
  | .closed (m, _) => .err (Error.SendError m)
  | .blocked => .pending

/-- Outcome of the permanent `Sender::recv`: a reply, the terminal `None`,
or a suspended await. -/
inductive SenderRecvRes (M R : Type) where
  | got (r : R) (s : Sender M R)
  | closedNone
  | pending
deriving DecidableEq, Repr

/-- Model of the permanent `Sender::recv` (`src/permanent/mod.rs` lines
173-175): simply `self.reverse_rx.recv().await`. -/
def Sender.recv (s : Sender M R) : SenderRecvRes M R :=
  match s.reverse.recvOutcome with
  | .got r c => .got r { s with reverse := c }
  | .closed => .closedNone
  | .blocked => .pending

/-- Outcome of the permanent `Sender::send_await_automatic`
(`Result<Option<R>, Error<M>>`, or a suspension point). -/
inductive AutoRes (M R : Type) where
  | ok (r : Option R) (s : Sender M R)
  | err (e : Error M)
  | pending
deriving DecidableEq, Repr

/-- Model of the permanent `Sender::send_await_automatic` (`src/lib.rs`
lines 185-192): `self.send_await(message).await?`, then
`let response = self.reverse_rx.recv().await`, then `Ok(response)`. -/
def Sender.send_await_automatic (s : Sender M R) (m : M) : AutoRes M R :=
  match s.send_await m with
  | .err e => .err e
  | .pending => .pending
  | .ok s2 =>
    match s2.recv with
    | .got r s3 => .ok (some r) s3
    | .closedNone => .ok none s2
    | .pending => .pending

/-- Model of the permanent factory `channel(buffer, reverse_buffer)`
(`src/lib.rs` lines 82-97): create the forward channel with capacity
`buffer` and the reply channel with capacity
`reverse_buffer.unwrap_or(buffer)`, and assemble the `Sender` struct.  The
returned `rx` half is the consumer side of the same forward channel (the
`rxAlive` flag of `tx`), so only the `Sender` value is returned here;
`none` models a tokio panic on a zero capacity. -/
def channel (M R : Type) (buffer : Nat) (reverse_buffer : Option Nat) :
    Option (Sender M R) :=
  match mpscChannel (M × ReverseTxClone) buffer,
      mpscChannel R (reverse_buffer.getD buffer) with
  | some fwd, some rev => some { tx := fwd, reverse := rev }
  | _, _ => none

/-! ## Temporary variant (`src/temporary/mod.rs`) -/

/-- Stand-in for the `oneshot::Sender<R>` write handle carried inside a
forward-channel entry of the temporary variant. -/
abbrev OneShotTx : Type := Unit

/-- Model of the temporary variant's `Sender<M, R>`: a newtype around the
forward-channel producer handle
(`mpsc::Sender<(M, oneshot::Sender<R>)>`). -/
structure TSender (M R : Type) where
  fwd : Chan (M × OneShotTx)
deriving DecidableEq, Repr

/-- Outcome of the temporary `Sender::send_await`
(`Result<oneshot::Receiver<R>, mpsc::error::SendError<M>>`, or a
suspension point).  `ok` carries the returned `oneshot::Receiver` (fresh:
nothing written, write side alive inside the queue). -/
inductive TSendRes (M R : Type) where
  | ok (rx : OneShot R) (s : TSender M R)
  | err (m : M)
  | pending
deriving DecidableEq, Repr

/-- Model of the temporary `Sender::send_await` (`src/temporary/mod.rs`
lines 63-73): create a fresh oneshot pair `(tx, rx)`, push
`(message, tx)` onto the forward channel, return `rx` on success; on
failure `map_err` rebuilds `SendError` around the message alone. -/
def TSender.send_await (s : TSender M R) (m : M) : TSendRes M R :=
  match s.fwd.sendOutcome (m, ()) with
  | .sent fwd2 => .ok { value := none, txAlive := true } { fwd := fwd2 }
  | .closed (m, _) => .err m
  | .blocked => .pending

/-- Outcome of the temporary `Sender::send_await_automatic`
(`Result<R, Error<M>>`, or a suspension point). -/
inductive TAutoRes (M R : Type) where
  | ok (r : R) (s : TSender M R)
  | err (e : Error M)
  | pending
deriving DecidableEq, Repr

/-- Model of the temporary `Sender::send_await_automatic`
(`src/temporary/mod.rs` lines 76-82): `self.send_await(message).await?`
(converting `mpsc::error::SendError<M>` into `Error::SendError` through
the `From` impl at `src/error/mod.rs` lines 52-56), then await the
returned oneshot receiver, `?`-converting a `RecvError` into
`Error::RecvError` through the `From` impl at lines 58-62.

The oneshot's write half travels to the forward-channel consumer, which
may write a reply or drop the half; `receiverAction` is the state the
oneshot has reached by the time the await resolves, as a function of the
fresh oneshot produced by `send_await`. -/
def TSender.send_await_automatic (s : TSender M R) (m : M)
    (receiverAction : OneShot R → OneShot R) : TAutoRes M R :=
  match s.send_await m with
  | .err m => .err (Error.SendError m)
  | .pending => .pending
  | .ok rx s2 =>
    match (receiverAction rx).awaitOutcome with
    | .ok r => .ok r s2
    | .err => .err Error.RecvError
    | .pending => .pending

/-- Model of the temporary factory `channel(buffer)`
(`src/temporary/mod.rs` lines 49-54): create the forward channel and wrap
its producer handle in the `Sender` newtype; `none` models a tokio panic
on zero capacity. -/
def temporaryChannel (M R : Type) (buffer : Nat) : Option (TSender M R) :=
  match mpscChannel (M × OneShotTx) buffer with
  | some fwd => some { fwd := fwd }
  | none => none

/-! ## Multi-sender system for the permanent variant

`Sys` makes the reply-handle routing of the permanent variant explicit:
sender clone `sid` owns reply channel `replies[sid]`, and a forward-queue
entry `(m, sid)` carries a clone of sender `sid`'s `reverse_tx` (the
handle's target is exactly the cloning sender's private queue, per
`Sender::send_await`).  The receiver pops entries, may keep the popped
handle (`held`), push any number of replies through it, or drop it.  Two
ghost logs record, in order, every reply the receiver pushed (with the
handle's target) and every reply each sender's `recv` returned. -/

/-- Global state of one permanent channel shared by `replies.length`
cloned senders. -/
structure Sys (M R : Type) where
  fwdCap : Nat
  fwd : List (M × Nat)
  fwdRxAlive : Bool
  replies : List (Chan R)
  held : List Nat
  pushLog : List (Nat × R)
  returnedLog : List (Nat × R)
deriving DecidableEq, Repr

/-- Events of `Sys`: a sender's `send_await` completing successfully, the
receiver's `rx.recv()` popping an entry, the receiver pushing a reply
through a held handle, the receiver dropping a held handle, a sender's
`recv` returning a reply, and `Sender::clone`. -/
inductive Ev (M R : Type) where
  | send (sid : Nat) (m : M)
  | rxRecv
  | rxReply (k : Nat) (r : R)
  | rxDropHeld (k : Nat)
  | sRecv (sid : Nat)
  | cloneSender (sid : Nat)
deriving DecidableEq, Repr

/-- One enabled step of the multi-sender system; `none` when the event's
guard fails (the corresponding operation would suspend or is impossible in
that state). -/
def Sys.step (s : Sys M R) : Ev M R → Option (Sys M R)
  | .send sid m =>
    match s.replies[sid]? with
    | none => none
    | some rq =>
      if s.fwdRxAlive = true ∧ s.fwd.length < s.fwdCap then
        some { s with
                 fwd := s.fwd ++ [(m, sid)],
                 replies :=
                   s.replies.set sid { rq with txCount := rq.txCount + 1 } }
      else none
  | .rxRecv =>
    match s.fwd with
    | [] => none
    | (_, sid) :: rest =>
      some { s with fwd := rest, held := s.held ++ [sid] }
  | .rxReply k r =>
    match s.held[k]? with
    | none => none
    | some sid =>
      match s.replies[sid]? with
      | none => none
      | some rq =>
        if rq.queue.length < rq.capacity then
          some { s with
                   replies :=
                     s.replies.set sid { rq with queue := rq.queue ++ [r] },
                   pushLog := s.pushLog ++ [(sid, r)] }
        else none
  | .rxDropHeld k =>
    match s.held[k]? with
    | none => none
    | some sid =>
      match s.replies[sid]? with
      | none => none
      | some rq =>
        some { s with
                 held := s.held.eraseIdx k,
                 replies :=
                   s.replies.set sid { rq with txCount := rq.txCount - 1 } }
  | .sRecv sid =>
    match s.replies[sid]? with
    | none => none
    | some rq =>
      match rq.queue with
      | [] => none
      | r :: rest =>
        some { s with
                 replies := s.replies.set sid { rq with queue := rest },
                 returnedLog := s.returnedLog ++ [(sid, r)] }
  | .cloneSender sid =>
    match s.replies[sid]? with
    | none => none
    | some rq =>
      some { s with replies := s.replies ++ [Chan.new R rq.capacity] }

/-- Initial state produced by the permanent factory: one sender (id `0`)
with a fresh empty reply channel, empty forward queue, live receiver. -/
def Sys.init (M R : Type) (fwdCap replyCap : Nat) : Sys M R :=
  { fwdCap := fwdCap
    fwd := []
    fwdRxAlive := true
    replies := [Chan.new R replyCap]
    held := []
    pushLog := []
    returnedLog := [] }

/-- Run a list of events from a state; `none` when some event is not
enabled. -/
def Sys.run (s : Sys M R) : List (Ev M R) → Option (Sys M R)
  | [] => some s
  | e :: rest =>
    match s.step e with
    | some s2 => Sys.run s2 rest
    | none => none

/-- Replies pushed by the receiver, in order, through handles targeting
sender `sid`'s private queue (handles that arrived with `sid`'s
messages). -/
def Sys.pushedTo (s : Sys M R) (sid : Nat) : List R :=
  (s.pushLog.filter (fun p => p.1 == sid)).map Prod.snd

/-- Replies returned, in order, by sender `sid`'s `recv`. -/
def Sys.returnedBy (s : Sys M R) (sid : Nat) : List R :=
  (s.returnedLog.filter (fun p => p.1 == sid)).map Prod.snd

/-- Current contents of sender `sid`'s private reply queue. -/
def Sys.queueOf (s : Sys M R) (sid : Nat) : List R :=
  match s.replies[sid]? with
  | some rq => rq.queue
  | none => []

/-! ## Round-trip system for the permanent variant

`RSys` models the usage pattern of the round-trip claim: `senders.length`
cloned senders each run the client loop
`for k in 0..n { send_await_automatic(k) }` while the receiver runs
`while let Some((m, tx)) = rx.recv().await { tx.send(f(m)).await }`.
`sSend` is the `send_await` half of one `send_await_automatic` call
completing, `sRecv` the `reverse_rx.recv()` half, and `rxStep` one
iteration of the receiver loop (pop the head entry `(m, sid)`, push
`f m` into sender `sid`'s reply queue). -/

/-- Client-side state of one cloned sender: the index of its next message,
whether it is inside `send_await_automatic` awaiting the reply, and the
list of results its completed `send_await_automatic` calls returned. -/
structure RSender (R : Type) where
  next : Nat
  waiting : Bool
  got : List (Option R)
deriving DecidableEq, Repr

/-- Global state of the round-trip system. -/
structure RSys (R : Type) where
  fwd : List (Nat × Nat)
  replies : List (List R)
  senders : List (RSender R)
deriving DecidableEq, Repr

/-- Events of the round-trip system. -/
inductive REv where
  | sSend (sid : Nat)
  | rxStep
  | sRecv (sid : Nat)
deriving DecidableEq, Repr

/-- One enabled step of the round-trip system.  `f` is the receiver's
reply function, `n` the number of messages each sender sends, `fwdCap` and
`replyCap` the two capacities from the factory. -/
def RSys.step (f : Nat → R) (n fwdCap replyCap : Nat) (s : RSys R) :
    REv → Option (RSys R)
  | .sSend sid =>
    match s.senders[sid]? with
    | none => none
    | some sd =>
      if sd.waiting = false ∧ sd.next < n ∧ s.fwd.length < fwdCap then
        some { s with
                 fwd := s.fwd ++ [(sd.next, sid)],
                 senders :=
                   s.senders.set sid
                     { sd with next := sd.next + 1, waiting := true } }
      else none
  | .rxStep =>
    match s.fwd with
    | [] => none
    | (m, sid) :: rest =>
      match s.replies[sid]? with
      | none => none
      | some q =>
        if q.length < replyCap then
          some { s with fwd := rest, replies := s.replies.set sid (q ++ [f m]) }
        else none
  | .sRecv sid =>
    match s.senders[sid]?, s.replies[sid]? with
    | some sd, some (r :: rest) =>
      if sd.waiting = true then
        some { s with
                 replies := s.replies.set sid rest,
                 senders :=
                   s.senders.set sid
                     { sd with
                         waiting := false, got := sd.got ++ [some r] } }
      else none
    | _, _ => none

/-- Initial round-trip state: `k` cloned senders, each with an empty
private reply queue, none having sent yet. -/
def RSys.init (R : Type) (k : Nat) : RSys R :=
  { fwd := []
    replies := List.replicate k []
    senders := List.replicate k { next := 0, waiting := false, got := [] } }

/-- Run a list of events from a round-trip state. -/
def RSys.run (f : Nat → R) (n fwdCap replyCap : Nat) (s : RSys R) :
    List REv → Option (RSys R)
  | [] => some s
  | e :: rest =>
    match RSys.step f n fwdCap replyCap s e with
    | some s2 => RSys.run f n fwdCap replyCap s2 rest
    | none => none

/-- Forward-queue entries stamped with sender `sid`'s reply handle, in
queue order. -/
def RSys.fwdFor (s : RSys R) (sid : Nat) : List (Nat × Nat) :=
  s.fwd.filter (fun e => e.2 == sid)

/-! ## Derived definitions used by the theorems -/

/-- Model of `impl Clone for Sender` (`src/lib.rs` lines 233-243, identical
to `src/permanent/mod.rs` lines 73-83): read
`reverse_buffer = self.reverse_tx.max_capacity()` (the buffer size fixed
at creation, i.e. `capacity` in the model), create a fresh reply channel
of that capacity with `mpsc::channel`, and share the forward producer
handle `self.tx.clone()` (same underlying forward channel). -/
def Sender.clone (s : Sender M R) : Sender M R :=
  { tx := s.tx, reverse := Chan.new R s.reverse.capacity }

/-- Iterate `Chan.sendOutcome`: push every item of the list in order,
`none` as soon as one send does not complete (error or suspension). -/
def Chan.sendAll (c : Chan α) : List α → Option (Chan α)
  | [] => some c
  | a :: rest =>
    match c.sendOutcome a with
    | .sent c2 => c2.sendAll rest
    | _ => none

/-- Iterate `Chan.recvOutcome` up to `n` times, collecting the received
values in order; stops early on a `closed` or `blocked` outcome. -/
def Chan.recvMany : Chan α → Nat → List α × Chan α
  | c, 0 => ([], c)
  | c, n + 1 =>
    match c.recvOutcome with
    | .got a c2 =>
      let p := c2.recvMany n
      (a :: p.1, p.2)
    | _ => ([], c)

/-- Invariant of the multi-sender system: every logged reply targets an
existing sender, and for every sender `sid` the replies pushed through
handles targeting `sid` are exactly the replies `sid`'s `recv` already
returned followed by the current contents of `sid`'s private queue. -/
def Sys.Inv (s : Sys M R) : Prop :=
  (∀ p ∈ s.pushLog, p.1 < s.replies.length) ∧
  (∀ p ∈ s.returnedLog, p.1 < s.replies.length) ∧
  ∀ sid, s.pushedTo sid = s.returnedBy sid ++ s.queueOf sid

/-- Invariant of the round-trip system, relative to the receiver's reply
function `f`: sender `sid`'s completed calls returned exactly
`some (f 0), some (f 1), ...`, and its single in-flight round trip (when
`waiting`) is either still in the forward queue (as the entry
`(got.length, sid)`) or already answered in its private reply queue (as
`f got.length`). -/
def RSys.Inv (f : Nat → R) (s : RSys R) : Prop :=
  s.replies.length = s.senders.length ∧
  (∀ e ∈ s.fwd, e.2 < s.senders.length) ∧
  ∀ sid sd, s.senders[sid]? = some sd →
    ∃ q, s.replies[sid]? = some q ∧
      sd.got = (List.range sd.got.length).map (fun j => some (f j)) ∧
      (sd.waiting = false →
        sd.next = sd.got.length ∧ s.fwdFor sid = [] ∧ q = []) ∧
      (sd.waiting = true →
        sd.next = sd.got.length + 1 ∧
          ((s.fwdFor sid = [(sd.got.length, sid)] ∧ q = []) ∨
            (s.fwdFor sid = [] ∧ q = [f sd.got.length])))

/-! ## Theorems -/

/-- C10: the claim states that formatting any `Error` value through its
`Debug` implementation terminates and produces a finite string.  The
implementation at `src/error/mod.rs` lines 66-70 is
`write!(f, "{:?}", self)`, which re-invokes the same `Debug::fmt` on the
same value: however many stack frames are available, no string is ever
produced (at runtime this is an infinite recursion that overflows the
stack).  The claim describes the evident intent (every `Debug` impl must
terminate; the author presumably meant the derived `Display` format
`"{}"`), so the code, not the claim, is at fault. -/
theorem c10_debug_fmt_never_produces_output (M : Type) (e : Error M)
    (fuel : Nat) : e.fmtDebug fuel = none := by
  induction fuel with
  | zero => rfl
  | succ n ih => simpa [Error.fmtDebug] using ih

/-- C3: in both variants, when the forward channel's consumer side (the
Receiver handle) has been dropped, the send operation fails with a send
error carrying back exactly the original message.  In the permanent
variant `send_await` returns `Error::SendError(SendError(m))`; in the
temporary variant `send_await` returns `mpsc::error::SendError(m)` (which
`send_await_automatic` converts to `Error::SendError`).  In both, the
`map_err` closure rebuilds the error around the original message
value. -/
theorem c3_receiver_dropped_send_fails_with_message
    (M R : Type) (s : Sender M R) (t : TSender M R) (m m2 : M)
    (hs : s.tx.rxAlive = false) (ht : t.fwd.rxAlive = false) :
    s.send_await m = .err (Error.SendError m) ∧ t.send_await m2 = .err m2 := by
  constructor
  · simp [Sender.send_await, Chan.sendOutcome, hs]
  · simp [TSender.send_await, Chan.sendOutcome, ht]

/-- C3 witness: a concrete permanent sender and a concrete temporary
sender whose forward receivers are dropped; the sends fail and return the
original messages `7` and `9`. -/
theorem c3_witness :
    ({ tx := ⟨1, [], 1, false⟩, reverse := ⟨1, [], 1, true⟩ } :
        Sender Nat Nat).send_await 7 = .err (Error.SendError 7) ∧
    ({ fwd := ⟨1, [], 1, false⟩ } : TSender Nat Nat).send_await 9 = .err 9 :=
  c3_receiver_dropped_send_fails_with_message Nat Nat _ _ 7 9 rfl rfl

/-- C7: in the temporary variant, when the message was accepted onto the
forward channel (`send_await` returned the oneshot receiver) but the
oneshot's write side is dropped without a value being written, awaiting
the reply inside `send_await_automatic` resolves to
`Error::RecvError` — an error value, not a suspension (`pending`) and not
a `SendError`. -/
theorem c7_dropped_reply_handle_fails_with_recv_error
    (M R : Type) (t t2 : TSender M R) (m : M) (rx : OneShot R)
    (receiverAction : OneShot R → OneShot R)
    (hsend : t.send_await m = .ok rx t2)
    (hdrop : receiverAction rx = { value := none, txAlive := false }) :
    t.send_await_automatic m receiverAction = .err Error.RecvError := by
  simp [TSender.send_await_automatic, hsend, hdrop, OneShot.awaitOutcome]

/-- C7 witness: a concrete accepted send whose oneshot write half is then
dropped unwritten; the automatic round trip fails with `RecvError`. -/
theorem c7_witness :
    ({ fwd := ⟨1, [], 1, true⟩ } : TSender Nat Nat).send_await_automatic 5
        (fun _ => { value := none, txAlive := false }) =
      .err Error.RecvError :=
  c7_dropped_reply_handle_fails_with_recv_error Nat Nat _
    { fwd := ⟨1, [(5, ())], 1, true⟩ } 5 { value := none, txAlive := true }
    (fun _ => { value := none, txAlive := false }) rfl rfl

/-- C2 counterexample: the claim states that the permanent `Sender::recv`
returns `None` once the Receiver side that held the reply-producer-handle
clones has exited.  Concrete state refuting it: the forward channel's
consumer is dropped (`tx.rxAlive = false`, the Receiver has exited) and no
reply-handle clone is outstanding anywhere, yet the reply channel still
counts one live producer — the `reverse_tx` field the `Sender` itself
permanently retains — so `recv` (which is `reverse_rx.recv().await`)
suspends forever (`pending`) instead of returning `None`
(`closedNone`). -/
theorem c2_counterexample :
    ({ tx := ⟨1, [], 1, false⟩, reverse := ⟨1, [], 1, true⟩ } :
          Sender Nat Nat).recv = SenderRecvRes.pending ∧
    ({ tx := ⟨1, [], 1, false⟩, reverse := ⟨1, [], 1, true⟩ } :
          Sender Nat Nat).recv ≠ SenderRecvRes.closedNone := by
  constructor
  · rfl
  · decide

/-- C2 (amended): the permanent `Sender::recv` pulls replies from the
sender's private reply queue in FIFO order, and returns `None` exactly
when that queue is empty and every one of its producer handles is
dropped.  Because the `Sender` struct itself retains `reverse_tx`, the
producer count cannot reach zero through any action of the Receiver side
alone: whenever at least one producer handle is live (in particular the
sender's own), `recv` never returns `None` — on an empty queue it blocks.
The queue is indeed never closed by the Sender's own actions. -/
theorem c2_recv_fifo_and_closure
    (M R : Type) (s : Sender M R) :
    (∀ r rest, s.reverse.queue = r :: rest →
        s.recv = .got r { s with reverse := { s.reverse with queue := rest } }) ∧
    (s.recv = .closedNone ↔ s.reverse.queue = [] ∧ s.reverse.txCount = 0) ∧
    (s.reverse.txCount ≠ 0 → s.recv ≠ .closedNone) := by
  refine ⟨?_, ?_, ?_⟩
  · intro r rest hq
    simp [Sender.recv, Chan.recvOutcome, hq]
  · unfold Sender.recv Chan.recvOutcome
    rcases hq : s.reverse.queue with _ | ⟨r, rest⟩ <;> simp [hq]
    rcases htx : s.reverse.txCount with _ | n <;> simp [htx]
  · intro htx hnone
    unfold Sender.recv Chan.recvOutcome at hnone
    rcases hq : s.reverse.queue with _ | ⟨r, rest⟩ <;> simp [hq] at hnone
    split at hnone <;> simp_all

/-- C2 witness: applying the amended theorem to the counterexample state
shows its `recv` does not return `None`. -/
theorem c2_witness :
    ({ tx := ⟨1, [], 1, false⟩, reverse := ⟨1, [], 1, true⟩ } :
        Sender Nat Nat).recv ≠ SenderRecvRes.closedNone :=
  (c2_recv_fifo_and_closure Nat Nat
      { tx := ⟨1, [], 1, false⟩, reverse := ⟨1, [], 1, true⟩ }).2.2
    (by decide)

/-- C8: for positive capacity arguments (the spec's `PositiveInt`) the two
factories complete without panicking — the only panic site in the core is
`tokio::sync::mpsc::channel` on a zero buffer, modelled by the `none`
branch of `mpscChannel` — and produce channels of the requested
capacities with empty queues.  Every modelled Sender/Receiver operation
(`sendOutcome`, `recvOutcome`, `send_await`, `recv`,
`send_await_automatic`, `clone`, `awaitOutcome`) is a total function into
an outcome type with no panic or abort constructor: all failures surface
as error or `None`-like values. -/
theorem c8_positive_capacity_never_panics
    (M R : Type) (buffer : Nat) (rb : Option Nat)
    (hb : 0 < buffer) (hrb : ∀ k, rb = some k → 0 < k) :
    (∃ s : Sender M R, channel M R buffer rb = some s ∧
        s.tx.capacity = buffer ∧ s.reverse.capacity = rb.getD buffer ∧
        s.tx.queue = [] ∧ s.reverse.queue = []) ∧
    (∃ t : TSender M R, temporaryChannel M R buffer = some t ∧
        t.fwd.capacity = buffer ∧ t.fwd.queue = []) := by
  have hb2 : ¬buffer = 0 := Nat.pos_iff_ne_zero.mp hb
  have hrb2 : ¬rb.getD buffer = 0 := by
    cases rb with
    | none => simpa using hb2
    | some k => simpa using Nat.pos_iff_ne_zero.mp (hrb k rfl)
  constructor
  · refine ⟨{ tx := Chan.new _ buffer, reverse := Chan.new R (rb.getD buffer) },
      ?_, rfl, rfl, rfl, rfl⟩
    simp [channel, mpscChannel, hb2, hrb2]
  · refine ⟨{ fwd := Chan.new _ buffer }, ?_, rfl, rfl⟩
    simp [temporaryChannel, mpscChannel, hb2]

/-- C8 witness: the permanent factory at capacities `(2, Some 3)` and the
temporary factory at capacity `2` both construct successfully. -/
theorem c8_witness :
    (channel Nat Nat 2 (some 3)).isSome = true ∧
    (temporaryChannel Nat Nat 2).isSome = true := by
  obtain ⟨⟨s, hs, -⟩, ⟨t, ht, -⟩⟩ :=
    c8_positive_capacity_never_panics Nat Nat 2 (some 3) (by decide)
      (by intro k h; injection h with h2; omega)
  exact ⟨by simp [hs], by simp [ht]⟩

/-- C9: cloning a permanent Sender creates the clone's reply channel by
`mpsc::channel(self.reverse_tx.max_capacity())`, i.e. with exactly the
original reply channel's creation-time capacity, and the fresh channel
holds no replies; the forward handle is shared unchanged.  The same holds
inside a running multi-sender system: the `cloneSender` step appends a
reply queue of the original's capacity, empty, leaving the shared forward
queue untouched. -/
theorem c9_clone_reply_capacity_and_empty
    (M R : Type) (s : Sender M R) (sys s2 : Sys M R) (sid : Nat)
    (rq : Chan R)
    (h1 : sys.replies[sid]? = some rq)
    (h2 : sys.step (.cloneSender sid) = some s2) :
    (s.clone).reverse.capacity = s.reverse.capacity ∧
    (s.clone).reverse.queue = [] ∧
    (s.clone).tx = s.tx ∧
    s2.replies[sys.replies.length]? = some (Chan.new R rq.capacity) ∧
    s2.fwd = sys.fwd := by
  refine ⟨rfl, rfl, rfl, ?_, ?_⟩ <;>
    · simp [Sys.step, h1] at h2
      subst h2
      simp [List.getElem?_concat_length]

/-- C9 witness: cloning sender `0` inside the one-sender initial system
(reply capacity `3`) appends a fresh empty reply queue of capacity `3`. -/
theorem c9_witness :
    ({ fwdCap := 2, fwd := [], fwdRxAlive := true,
       replies := [Chan.new Nat 3, Chan.new Nat 3], held := [],
       pushLog := [], returnedLog := [] } : Sys Nat Nat).replies[1]?
      = some (Chan.new Nat 3) :=
  (c9_clone_reply_capacity_and_empty Nat Nat
    { tx := ⟨1, [], 1, true⟩, reverse := ⟨5, [], 1, true⟩ }
    (Sys.init Nat Nat 2 3)
    { fwdCap := 2, fwd := [], fwdRxAlive := true,
      replies := [Chan.new Nat 3, Chan.new Nat 3], held := [],
      pushLog := [], returnedLog := [] }
    0 (Chan.new Nat 3) (by decide) (by decide)).2.2.2.1

/-- Helper: the permanent `recv` yields the terminal `None` exactly when
the reply queue is drained and every producer handle of the reply channel
is dropped. -/
theorem Sender.recv_eq_closedNone_iff (s : Sender M R) :
    s.recv = .closedNone ↔
      s.reverse.queue = [] ∧ s.reverse.txCount = 0 := by
  unfold Sender.recv Chan.recvOutcome
  rcases hq : s.reverse.queue with _ | ⟨r, rest⟩ <;> simp [hq]
  rcases htx : s.reverse.txCount with _ | n <;> simp [htx]

/-- C5: the permanent `send_await_automatic` behaves exactly as
`send_await` followed by `recv`: a send failure is returned as-is with
the reply queue unread, a suspended send stays suspended, and an accepted
send returns `Ok` of whatever `recv` then yields (a reply, the terminal
`None`, or a suspension).  The overall result is `Ok(None)` exactly when
the send was accepted and the reply channel was already closed — drained
queue and no live producer handle — before a reply arrived, which is
distinct from a send failure. -/
theorem c5_automatic_is_send_then_recv (M R : Type) (s : Sender M R) (m : M) :
    (∀ e, s.send_await m = .err e → s.send_await_automatic m = .err e) ∧
    (s.send_await m = .pending → s.send_await_automatic m = .pending) ∧
    (∀ s2, s.send_await m = .ok s2 →
        (∀ r s3, s2.recv = .got r s3 →
            s.send_await_automatic m = .ok (some r) s3) ∧
        (s2.recv = .closedNone → s.send_await_automatic m = .ok none s2) ∧
        (s2.recv = .pending → s.send_await_automatic m = .pending)) ∧
    ((∃ s2, s.send_await_automatic m = .ok none s2) ↔
        (∃ s2, s.send_await m = .ok s2 ∧ s2.reverse.queue = [] ∧
            s2.reverse.txCount = 0)) := by
  refine ⟨?_, ?_, ?_, ?_⟩
  · intro e he
    simp [Sender.send_await_automatic, he]
  · intro hp
    simp [Sender.send_await_automatic, hp]
  · intro s2 hok
    refine ⟨?_, ?_, ?_⟩
    · intro r s3 hr
      simp [Sender.send_await_automatic, hok, hr]
    · intro hc
      simp [Sender.send_await_automatic, hok, hc]
    · intro hp
      simp [Sender.send_await_automatic, hok, hp]
  · constructor
    · rintro ⟨s2, h⟩
      cases hsend : s.send_await m with
      | err e => simp [Sender.send_await_automatic, hsend] at h
      | pending => simp [Sender.send_await_automatic, hsend] at h
      | ok s4 =>
        cases hr : s4.recv with
        | got r s5 => simp [Sender.send_await_automatic, hsend, hr] at h
        | pending => simp [Sender.send_await_automatic, hsend, hr] at h
        | closedNone =>
          obtain ⟨hq, htx⟩ := (Sender.recv_eq_closedNone_iff s4).mp hr
          exact ⟨s4, rfl, hq, htx⟩
    · rintro ⟨s2, hok, hq, htx⟩
      have hr : s2.recv = .closedNone :=
        (Sender.recv_eq_closedNone_iff s2).mpr ⟨hq, htx⟩
      exact ⟨s2, by simp [Sender.send_await_automatic, hok, hr]⟩

/-- C5 witness: on a concrete sender whose forward receiver is dropped,
the automatic round trip fails with exactly the send error of the
`send_await` half. -/
theorem c5_witness :
    ({ tx := ⟨1, [], 1, false⟩, reverse := ⟨1, [], 1, true⟩ } :
        Sender Nat Nat).send_await_automatic 4 = .err (Error.SendError 4) :=
  (c5_automatic_is_send_then_recv Nat Nat
      { tx := ⟨1, [], 1, false⟩, reverse := ⟨1, [], 1, true⟩ } 4).1
    (Error.SendError 4) (by decide)

/-- Helper: while the consumer is alive and spare capacity suffices for
the whole list, iterated sends all complete and append the items in
order. -/
theorem Chan.sendAll_of_room (items : List α) (c : Chan α)
    (hrx : c.rxAlive = true)
    (hlen : c.queue.length + items.length ≤ c.capacity) :
    c.sendAll items = some { c with queue := c.queue ++ items } := by
  induction items generalizing c with
  | nil => simp [Chan.sendAll]
  | cons a rest ih =>
    have hlt : c.queue.length < c.capacity := by
      simp [List.length_cons] at hlen
      omega
    have hsend : c.sendOutcome a = .sent { c with queue := c.queue ++ [a] } := by
      simp [Chan.sendOutcome, hrx, hlt]
    have hrest : ({ c with queue := c.queue ++ [a] } : Chan α).sendAll rest =
        some { c with queue := (c.queue ++ [a]) ++ rest } :=
      ih { c with queue := c.queue ++ [a] } hrx
        (by simp [List.length_append, List.length_cons] at hlen ⊢; omega)
    simp only [Chan.sendAll, hsend, hrest]
    simp [List.append_assoc]

/-- Helper: receiving exactly as many times as the queue holds drains the
queue and yields its contents in order. -/
theorem Chan.recvMany_exact (l : List α) (c : Chan α) (hq : c.queue = l) :
    c.recvMany l.length = (l, { c with queue := [] }) := by
  induction l generalizing c with
  | nil =>
    obtain ⟨cap, q, txc, rx⟩ := c
    simp only at hq
    subst hq
    simp [Chan.recvMany]
  | cons a rest ih =>
    have hr : c.recvOutcome = .got a { c with queue := rest } := by
      simp [Chan.recvOutcome, hq]
    simp [Chan.recvMany, hr, ih { c with queue := rest } rfl]

/-- C6: with a fresh forward channel of capacity `N`, any `N` sends
complete without error and buffer the items in order; the `(N+1)`th send
suspends (`blocked`) — it neither fails nor drops the item; after one
receive the suspended send completes; and the full delivery sequence is
the first `N` items in their original order followed by the extra
item. -/
theorem c6_capacity_backpressure_preserves_order
    (α : Type) (N : Nat) (items : List α) (x : α)
    (hN : 0 < N) (hlen : items.length = N) :
    ∃ c, (Chan.new α N).sendAll items = some c ∧ c.queue = items ∧
      c.sendOutcome x = .blocked ∧
      ∃ a c2, c.recvOutcome = .got a c2 ∧ items.head? = some a ∧
        ∃ c3, c2.sendOutcome x = .sent c3 ∧
          a :: (c3.recvMany N).1 = items ++ [x] := by
  rcases items with _ | ⟨a0, tail⟩
  · simp at hlen
    omega
  · have htail : tail.length + 1 = N := by
      simpa [List.length_cons] using hlen
    have hsa : (Chan.new α N).sendAll (a0 :: tail) =
        some { capacity := N, queue := a0 :: tail, txCount := 1,
               rxAlive := true } := by
      have h := Chan.sendAll_of_room (a0 :: tail) (Chan.new α N) rfl
        (by simp [Chan.new]; omega)
      simpa [Chan.new] using h
    refine ⟨_, hsa, rfl, ?_, ?_⟩
    · simp [Chan.sendOutcome, hlen]
    · refine ⟨a0, ⟨N, tail, 1, true⟩, rfl, rfl, ?_⟩
      have hroom : tail.length < N := by omega
      refine ⟨⟨N, tail ++ [x], 1, true⟩, ?_, ?_⟩
      · simp [Chan.sendOutcome, hroom]
      · have hN2 : N = (tail ++ [x]).length := by
          simp [List.length_append]
          omega
        rw [hN2, Chan.recvMany_exact (tail ++ [x]) _ rfl]
        simp

/-- C6 witness: capacity `2`, items `[10, 20]`, extra item `30`. -/
theorem c6_witness :
    ∃ c, (Chan.new Nat 2).sendAll [10, 20] = some c ∧ c.queue = [10, 20] ∧
      c.sendOutcome 30 = .blocked ∧
      ∃ a c2, c.recvOutcome = .got a c2 ∧ [10, 20].head? = some a ∧
        ∃ c3, c2.sendOutcome 30 = .sent c3 ∧
          a :: (c3.recvMany 2).1 = [10, 20] ++ [30] :=
  c6_capacity_backpressure_preserves_order Nat 2 [10, 20] 30 (by decide)
    (by decide)

/-- Helper: appending a log entry targeting `sid` extends the projection
for `sid` by that reply. -/
theorem filter_fst_append_self (log : List (Nat × R)) (sid : Nat) (r : R) :
    ((log ++ [(sid, r)]).filter (fun p => p.1 == sid)).map Prod.snd =
      (log.filter (fun p => p.1 == sid)).map Prod.snd ++ [r] := by
  simp

/-- Helper: appending a log entry targeting `sid` leaves the projection
for any other sender unchanged. -/
theorem filter_fst_append_other (log : List (Nat × R)) (sid sid2 : Nat)
    (r : R) (h : ¬sid = sid2) :
    ((log ++ [(sid, r)]).filter (fun p => p.1 == sid2)).map Prod.snd =
      (log.filter (fun p => p.1 == sid2)).map Prod.snd := by
  simp [h]

/-- Helper: a log whose targets are all below `n` projects to nothing for
any sender id at or above `n`. -/
theorem filter_fst_out_of_range (log : List (Nat × R)) (n sid : Nat)
    (hb : ∀ p ∈ log, p.1 < n) (hs : n ≤ sid) :
    (log.filter (fun p => p.1 == sid)).map Prod.snd = [] := by
  have h : log.filter (fun p => p.1 == sid) = [] := by
    rw [List.filter_eq_nil_iff]
    intro p hp
    have h2 := hb p hp
    simp
    omega
  simp [h]

/-- Helper: reading `queueOf` through a known reply-channel lookup. -/
theorem Sys.queueOf_eq (s : Sys M R) (sid : Nat) (rq : Chan R)
    (h : s.replies[sid]? = some rq) : s.queueOf sid = rq.queue := by
  simp [Sys.queueOf, h]

/-- Helper: the invariant holds in the factory's initial state. -/
theorem Sys.inv_init (M R : Type) (fwdCap replyCap : Nat) :
    (Sys.init M R fwdCap replyCap).Inv := by
  refine ⟨?_, ?_, ?_⟩
  · intro p hp
    simp [Sys.init] at hp
  · intro p hp
    simp [Sys.init] at hp
  · intro sid
    rcases sid with _ | n <;>
      simp [Sys.init, Sys.pushedTo, Sys.returnedBy, Sys.queueOf, Chan.new]

/-- Helper: every enabled step of the multi-sender system preserves the
routing invariant. -/
theorem Sys.inv_step (s s2 : Sys M R) (e : Ev M R)
    (hinv : s.Inv) (hstep : s.step e = some s2) : s2.Inv := by
  obtain ⟨hpush, hret, hmain⟩ := hinv
  cases e with
  | send sid m =>
    simp only [Sys.step] at hstep
    rcases hrq : s.replies[sid]? with _ | rq
    · simp only [hrq] at hstep
      simp at hstep
    · simp only [hrq] at hstep
      split at hstep
      · simp only [Option.some.injEq] at hstep
        subst hstep
        have hlt : sid < s.replies.length :=
          (List.getElem?_eq_some_iff.mp hrq).1
        refine ⟨?_, ?_, ?_⟩
        · intro p hp
          simpa [List.length_set] using hpush p hp
        · intro p hp
          simpa [List.length_set] using hret p hp
        · intro sid2
          have h3 := hmain sid2
          simp only [Sys.pushedTo, Sys.returnedBy, Sys.queueOf] at h3 ⊢
          by_cases hss : sid = sid2
          · subst hss
            rw [h3, hrq, List.getElem?_set_self hlt]
          · rw [h3, List.getElem?_set_ne hss]
      · simp at hstep
  | rxRecv =>
    simp only [Sys.step] at hstep
    rcases hf : s.fwd with _ | ⟨⟨m, sid⟩, rest⟩
    · simp only [hf] at hstep
      simp at hstep
    · simp only [hf] at hstep
      simp only [Option.some.injEq] at hstep
      subst hstep
      exact ⟨hpush, hret, hmain⟩
  | rxReply k r =>
    simp only [Sys.step] at hstep
    rcases hk : s.held[k]? with _ | sid
    · simp only [hk] at hstep
      simp at hstep
    · simp only [hk] at hstep
      rcases hrq : s.replies[sid]? with _ | rq
      · simp only [hrq] at hstep
        simp at hstep
      · simp only [hrq] at hstep
        split at hstep
        · simp only [Option.some.injEq] at hstep
          subst hstep
          have hlt : sid < s.replies.length :=
            (List.getElem?_eq_some_iff.mp hrq).1
          refine ⟨?_, ?_, ?_⟩
          · intro p hp
            rcases List.mem_append.mp hp with hp2 | hp2
            · simpa [List.length_set] using hpush p hp2
            · simp at hp2
              subst hp2
              simpa [List.length_set] using hlt
          · intro p hp
            simpa [List.length_set] using hret p hp
          · intro sid2
            have h3 := hmain sid2
            simp only [Sys.pushedTo, Sys.returnedBy, Sys.queueOf] at h3 ⊢
            by_cases hss : sid = sid2
            · subst hss
              rw [filter_fst_append_self, h3,
                List.getElem?_set_self hlt, hrq]
              simp [List.append_assoc]
            · rw [filter_fst_append_other _ _ _ _ hss, h3,
                List.getElem?_set_ne hss]
        · simp at hstep
  | rxDropHeld k =>
    simp only [Sys.step] at hstep
    rcases hk : s.held[k]? with _ | sid
    · simp only [hk] at hstep
      simp at hstep
    · simp only [hk] at hstep
      rcases hrq : s.replies[sid]? with _ | rq
      · simp only [hrq] at hstep
        simp at hstep
      · simp only [hrq] at hstep
        simp only [Option.some.injEq] at hstep
        subst hstep
        have hlt : sid < s.replies.length :=
          (List.getElem?_eq_some_iff.mp hrq).1
        refine ⟨?_, ?_, ?_⟩
        · intro p hp
          simpa [List.length_set] using hpush p hp
        · intro p hp
          simpa [List.length_set] using hret p hp
        · intro sid2
          have h3 := hmain sid2
          simp only [Sys.pushedTo, Sys.returnedBy, Sys.queueOf] at h3 ⊢
          by_cases hss : sid = sid2
          · subst hss
            rw [h3, hrq, List.getElem?_set_self hlt]
          · rw [h3, List.getElem?_set_ne hss]
  | sRecv sid =>
    simp only [Sys.step] at hstep
    rcases hrq : s.replies[sid]? with _ | rq
    · simp only [hrq] at hstep
      simp at hstep
    · simp only [hrq] at hstep
      rcases hqq : rq.queue with _ | ⟨r, rest⟩
      · simp only [hqq] at hstep
        simp at hstep
      · simp only [hqq] at hstep
        simp only [Option.some.injEq] at hstep
        subst hstep
        have hlt : sid < s.replies.length :=
          (List.getElem?_eq_some_iff.mp hrq).1
        refine ⟨?_, ?_, ?_⟩
        · intro p hp
          simpa [List.length_set] using hpush p hp
        · intro p hp
          rcases List.mem_append.mp hp with hp2 | hp2
          · simpa [List.length_set] using hret p hp2
          · simp at hp2
            subst hp2
            simpa [List.length_set] using hlt
        · intro sid2
          have h3 := hmain sid2
          simp only [Sys.pushedTo, Sys.returnedBy, Sys.queueOf] at h3 ⊢
          by_cases hss : sid = sid2
          · subst hss
            rw [h3, filter_fst_append_self,
              List.getElem?_set_self hlt, hrq]
            simp [hqq]
          · rw [h3, filter_fst_append_other _ _ _ _ hss,
              List.getElem?_set_ne hss]
  | cloneSender sid =>
    simp only [Sys.step] at hstep
    rcases hrq : s.replies[sid]? with _ | rq
    · simp only [hrq] at hstep
      simp at hstep
    · simp only [hrq] at hstep
      simp only [Option.some.injEq] at hstep
      subst hstep
      refine ⟨?_, ?_, ?_⟩
      · intro p hp
        have h2 := hpush p hp
        simp [List.length_append]
        omega
      · intro p hp
        have h2 := hret p hp
        simp [List.length_append]
        omega
      · intro sid2
        have h3 := hmain sid2
        simp only [Sys.pushedTo, Sys.returnedBy, Sys.queueOf] at h3 ⊢
        by_cases hlt2 : sid2 < s.replies.length
        · rw [List.getElem?_append_left hlt2]
          exact h3
        · have hge : s.replies.length ≤ sid2 := Nat.le_of_not_lt hlt2
          rw [filter_fst_out_of_range s.pushLog s.replies.length sid2
              hpush hge,
            filter_fst_out_of_range s.returnedLog s.replies.length sid2
              hret hge]
          rcases Nat.eq_or_lt_of_le hge with heq | hlt3
          · rw [← heq, List.getElem?_concat_length]
            simp [Chan.new]
          · rw [List.getElem?_eq_none (by simp [List.length_append]; omega)]
            simp

/-- Helper: running any event list preserves the routing invariant. -/
theorem Sys.inv_run (evs : List (Ev M R)) (s s2 : Sys M R)
    (hinv : s.Inv) (hrun : s.run evs = some s2) : s2.Inv := by
  induction evs generalizing s with
  | nil =>
    simp [Sys.run] at hrun
    subst hrun
    exact hinv
  | cons e rest ih =>
    simp only [Sys.run] at hrun
    rcases hstep : s.step e with _ | s3 <;> rw [hstep] at hrun
    · simp at hrun
    · exact ih s3 (Sys.inv_step s s3 e hinv hstep) hrun

/-- C1: clone isolation in the permanent variant.  In the multi-sender
system, a reply handle that arrives with one of sender `A`'s messages
targets `A`'s private reply queue (the `send` step stamps each forward
entry with the sending clone's own id, mirroring
`self.reverse_tx.clone()`), and `cloneSender` gives every new clone a
fresh, empty, independent queue while sharing the forward queue.  In
every state reachable from the factory state by any sequence of sends,
receiver pops, receiver replies, handle drops, sender receives and
clones:  the replies pushed through handles targeting sender `sid` are
exactly the replies `sid`'s own `recv` has returned, in order, followed
by the current contents of `sid`'s private queue.  In particular a reply
the receiver pushed into a handle that arrived with `A`'s message is
observable only through `A.recv` — every element of any other clone
`B`'s returned stream comes from a push targeting `B`. -/
theorem c1_clone_reply_isolation (M R : Type) (fwdCap replyCap : Nat)
    (evs : List (Ev M R)) (s : Sys M R)
    (h : (Sys.init M R fwdCap replyCap).run evs = some s) (sid : Nat) :
    s.pushedTo sid = s.returnedBy sid ++ s.queueOf sid :=
  (Sys.inv_run evs _ s (Sys.inv_init M R fwdCap replyCap) h).2.2 sid

/-- C1 witness: a concrete run — clone the factory sender, let clone `1`
send message `5`, let the receiver pop it and reply `42` through the
arriving handle, and let clone `1` receive — reaches the stated state,
where the reply `42` pushed to clone `1` was returned by clone `1`'s
`recv` (and sender `0`'s streams are empty). -/
theorem c1_witness :
    Sys.pushedTo
        (⟨2, [], true, [⟨2, [], 1, true⟩, ⟨2, [], 2, true⟩], [1],
          [(1, 42)], [(1, 42)]⟩ : Sys Nat Nat) 1 =
      Sys.returnedBy
          (⟨2, [], true, [⟨2, [], 1, true⟩, ⟨2, [], 2, true⟩], [1],
            [(1, 42)], [(1, 42)]⟩ : Sys Nat Nat) 1 ++
        Sys.queueOf
          (⟨2, [], true, [⟨2, [], 1, true⟩, ⟨2, [], 2, true⟩], [1],
            [(1, 42)], [(1, 42)]⟩ : Sys Nat Nat) 1 :=
  c1_clone_reply_isolation Nat Nat 2 2
    [.cloneSender 0, .send 1 5, .rxRecv, .rxReply 0 42, .sRecv 1]
    _ (by decide) 1

/-- Helper: appending a forward entry stamped for `sid` extends the
projection for `sid`. -/
theorem filter_snd_append_self (l : List (Nat × Nat)) (m sid : Nat) :
    (l ++ [(m, sid)]).filter (fun e => e.2 == sid) =
      l.filter (fun e => e.2 == sid) ++ [(m, sid)] := by
  simp

/-- Helper: appending a forward entry stamped for `sid` leaves other
projections unchanged. -/
theorem filter_snd_append_other (l : List (Nat × Nat)) (m sid sid2 : Nat)
    (h : ¬sid = sid2) :
    (l ++ [(m, sid)]).filter (fun e => e.2 == sid2) =
      l.filter (fun e => e.2 == sid2) := by
  simp [h]

/-- Helper: the round-trip invariant holds initially for any number of
cloned senders. -/
theorem RSys.rinv_init (R : Type) (f : Nat → R) (k : Nat) :
    (RSys.init R k).Inv f := by
  refine ⟨by simp [RSys.init], by simp [RSys.init], ?_⟩
  intro sid sd hsd
  simp only [RSys.init] at hsd ⊢
  rw [List.getElem?_replicate] at hsd
  split at hsd
  · simp only [Option.some.injEq] at hsd
    subst hsd
    refine ⟨[], ?_, by simp, by simp [RSys.fwdFor], by simp⟩
    rw [List.getElem?_replicate]
    simp_all
  · simp at hsd

/-- Helper: every enabled step of the round-trip system preserves the
round-trip invariant. -/
theorem RSys.rinv_step (R : Type) (f : Nat → R) (n fwdCap replyCap : Nat)
    (s s2 : RSys R) (e : REv) (hinv : s.Inv f)
    (hstep : RSys.step f n fwdCap replyCap s e = some s2) : s2.Inv f := by
  obtain ⟨hlen, hfwd, hsd⟩ := hinv
  cases e with
  | sSend sid =>
    simp only [RSys.step] at hstep
    rcases hsd0 : s.senders[sid]? with _ | sd
    · simp only [hsd0] at hstep
      simp at hstep
    · simp only [hsd0] at hstep
      split at hstep
      · rename_i hguard
        obtain ⟨hw, hn, hroom⟩ := hguard
        simp only [Option.some.injEq] at hstep
        subst hstep
        have hltS : sid < s.senders.length :=
          (List.getElem?_eq_some_iff.mp hsd0).1
        obtain ⟨q, hq, hgot, hwf, hwt⟩ := hsd sid sd hsd0
        obtain ⟨hnext, hff, hqe⟩ := hwf hw
        refine ⟨by simpa [List.length_set] using hlen, ?_, ?_⟩
        · intro e he
          rcases List.mem_append.mp he with he2 | he2
          · simpa [List.length_set] using hfwd e he2
          · simp at he2
            subst he2
            simpa [List.length_set] using hltS
        · intro sid2 sd3 hsd3
          by_cases hss : sid = sid2
          · subst hss
            rw [List.getElem?_set_self hltS] at hsd3
            simp only [Option.some.injEq] at hsd3
            subst hsd3
            refine ⟨q, hq, hgot, by simp, ?_⟩
            intro _
            simp only [RSys.fwdFor, filter_snd_append_self]
            rw [show s.fwd.filter (fun e => e.2 == sid) = [] from hff]
            exact ⟨by omega, Or.inl ⟨by simp [hnext], hqe⟩⟩
          · rw [List.getElem?_set_ne hss] at hsd3
            obtain ⟨q2, hq2, hgot2, hwf2, hwt2⟩ := hsd sid2 sd3 hsd3
            refine ⟨q2, hq2, hgot2, ?_, ?_⟩
            · intro hw2
              obtain ⟨h1, h2, h3⟩ := hwf2 hw2
              exact ⟨h1, by
                simpa [RSys.fwdFor, filter_snd_append_other _ _ _ _ hss]
                  using h2, h3⟩
            · intro hw2
              obtain ⟨h1, h2⟩ := hwt2 hw2
              refine ⟨h1, ?_⟩
              simpa [RSys.fwdFor, filter_snd_append_other _ _ _ _ hss]
                using h2
      · simp at hstep
  | rxStep =>
    simp only [RSys.step] at hstep
    rcases hf : s.fwd with _ | ⟨⟨m, sid⟩, rest⟩
    · simp only [hf] at hstep
      simp at hstep
    · simp only [hf] at hstep
      rcases hq0 : s.replies[sid]? with _ | q0
      · simp only [hq0] at hstep
        simp at hstep
      · simp only [hq0] at hstep
        split at hstep
        · simp only [Option.some.injEq] at hstep
          subst hstep
          have hmem : (m, sid) ∈ s.fwd := by
            rw [hf]
            exact List.mem_cons_self _ _
          have hsidlt : sid < s.senders.length := hfwd (m, sid) hmem
          have hltR : sid < s.replies.length :=
            (List.getElem?_eq_some_iff.mp hq0).1
          obtain ⟨sd, hsd0⟩ : ∃ sd, s.senders[sid]? = some sd :=
            ⟨_, List.getElem?_eq_getElem hsidlt⟩
          obtain ⟨q, hq, hgot, hwf, hwt⟩ := hsd sid sd hsd0
          have hqq : q = q0 := by
            rw [hq] at hq0
            exact (Option.some.injEq _ _).mp hq0
          subst hqq
          have hmemf : (m, sid) ∈ s.fwdFor sid := by
            simp [RSys.fwdFor, hmem]
          have hw : sd.waiting = true := by
            cases hwb : sd.waiting
            · obtain ⟨-, hff, -⟩ := hwf hwb
              rw [hff] at hmemf
              simp at hmemf
            · rfl
          obtain ⟨hnext, hdisj⟩ := hwt hw
          rcases hdisj with ⟨hff, hqe⟩ | ⟨hff, -⟩
          · have hfe : s.fwdFor sid = (m, sid) :: rest.filter
                (fun e => e.2 == sid) := by
              simp [RSys.fwdFor, hf]
            rw [hff] at hfe
            have hm : m = sd.got.length := by
              have := List.head_eq_of_cons_eq hfe.symm
              simpa using congrArg Prod.fst this
            have hrestf : rest.filter (fun e => e.2 == sid) = [] :=
              List.tail_eq_of_cons_eq hfe.symm
            refine ⟨by simpa [List.length_set] using hlen, ?_, ?_⟩
            · intro e he
              exact hfwd e (by rw [hf]; exact List.mem_cons_of_mem _ he)
            · intro sid2 sd3 hsd3
              by_cases hss : sid = sid2
              · subst hss
                have hsd3e : sd3 = sd := by
                  rw [hsd0] at hsd3
                  exact ((Option.some.injEq _ _).mp hsd3).symm
                subst hsd3e
                refine ⟨q ++ [f m], by
                  rw [List.getElem?_set_self hltR], hgot, ?_, ?_⟩
                · intro hw2
                  rw [hw2] at hw
                  simp at hw
                · intro _
                  refine ⟨hnext, Or.inr ⟨?_, ?_⟩⟩
                  · simpa [RSys.fwdFor] using hrestf
                  · rw [hqe, hm]
                    simp
              · obtain ⟨q2, hq2, hgot2, hwf2, hwt2⟩ := hsd sid2 sd3 hsd3
                have hffeq : List.filter (fun e => e.2 == sid2) rest =
                    s.fwdFor sid2 := by
                  simp only [RSys.fwdFor, hf]
                  rw [List.filter_cons_of_neg (by simpa using hss)]
                refine ⟨q2, by rw [List.getElem?_set_ne hss]; exact hq2,
                  hgot2, ?_, ?_⟩
                · intro hw2
                  obtain ⟨h1, h2, h3⟩ := hwf2 hw2
                  exact ⟨h1, by simpa [RSys.fwdFor, hffeq] using h2, h3⟩
                · intro hw2
                  obtain ⟨h1, h2⟩ := hwt2 hw2
                  refine ⟨h1, ?_⟩
                  simpa [RSys.fwdFor, hffeq] using h2
          · rw [hff] at hmemf
            simp at hmemf
        · simp at hstep
  | sRecv sid =>
    simp only [RSys.step] at hstep
    rcases hsd0 : s.senders[sid]? with _ | sd
    · simp only [hsd0] at hstep
      simp at hstep
    · rcases hq0 : s.replies[sid]? with _ | q0
      · simp only [hsd0, hq0] at hstep
        simp at hstep
      · rcases hq0c : q0 with _ | ⟨r, restq⟩
        · simp only [hsd0, hq0, hq0c] at hstep
          simp at hstep
        · simp only [hsd0, hq0, hq0c] at hstep
          split at hstep
          · rename_i hw
            simp only [Option.some.injEq] at hstep
            subst hstep
            have hltS : sid < s.senders.length :=
              (List.getElem?_eq_some_iff.mp hsd0).1
            have hltR : sid < s.replies.length :=
              (List.getElem?_eq_some_iff.mp hq0).1
            obtain ⟨q, hq, hgot, hwf, hwt⟩ := hsd sid sd hsd0
            have hqq : q = r :: restq := by
              rw [hq0c] at hq0
              rw [hq] at hq0
              exact (Option.some.injEq _ _).mp hq0
            obtain ⟨hnext, hdisj⟩ := hwt hw
            rcases hdisj with ⟨-, hqe⟩ | ⟨hff, hqe⟩
            · rw [hqe] at hqq
              simp at hqq
            · rw [hqe] at hqq
              have hr : r = f sd.got.length := by
                simpa using (List.head_eq_of_cons_eq hqq.symm)
              have hrest : restq = [] := by
                simpa using (List.tail_eq_of_cons_eq hqq.symm)
              refine ⟨by simpa [List.length_set] using hlen, ?_, ?_⟩
              · intro e he
                simpa [List.length_set] using hfwd e he
              · intro sid2 sd3 hsd3
                by_cases hss : sid = sid2
                · subst hss
                  rw [List.getElem?_set_self hltS] at hsd3
                  simp only [Option.some.injEq] at hsd3
                  subst hsd3
                  refine ⟨restq, by rw [List.getElem?_set_self hltR], ?_,
                    ?_, ?_⟩
                  · rw [hr]
                    have hglen :
                        (sd.got ++ [some (f sd.got.length)]).length =
                          sd.got.length + 1 := by simp
                    rw [hglen, List.range_succ, List.map_append, ← hgot]
                    simp
                  · intro _
                    refine ⟨by simp [hnext], ?_, hrest⟩
                    simpa [RSys.fwdFor] using hff
                  · intro hw2
                    simp at hw2
                · rw [List.getElem?_set_ne hss] at hsd3
                  obtain ⟨q2, hq2, hgot2, hwf2, hwt2⟩ := hsd sid2 sd3 hsd3
                  refine ⟨q2, by rw [List.getElem?_set_ne hss]; exact hq2,
                    hgot2, ?_, ?_⟩
                  · intro hw2
                    obtain ⟨h1, h2, h3⟩ := hwf2 hw2
                    exact ⟨h1, by simpa [RSys.fwdFor] using h2, h3⟩
                  · intro hw2
                    obtain ⟨h1, h2⟩ := hwt2 hw2
                    refine ⟨h1, ?_⟩
                    simpa [RSys.fwdFor] using h2
          · simp at hstep

/-- Helper: running any event list preserves the round-trip invariant. -/
theorem RSys.rinv_run (R : Type) (f : Nat → R) (n fwdCap replyCap : Nat)
    (evs : List REv) (s s2 : RSys R) (hinv : s.Inv f)
    (hrun : RSys.run f n fwdCap replyCap s evs = some s2) : s2.Inv f := by
  induction evs generalizing s with
  | nil =>
    simp [RSys.run] at hrun
    subst hrun
    exact hinv
  | cons e rest ih =>
    simp only [RSys.run] at hrun
    rcases hstep : RSys.step f n fwdCap replyCap s e with _ | s3 <;>
      rw [hstep] at hrun
    · simp at hrun
    · exact ih s3 (RSys.rinv_step R f n fwdCap replyCap s s3 e hinv hstep) hrun

/-- C4: in any interleaved run of the round-trip usage pattern — each of
`k` cloned senders calling `send_await_automatic` on messages
`0, 1, ..., n-1` in order, the receiver loop replying `f m` to each
arriving message in arrival order — every sender that has completed its
`n` calls obtained exactly the results
`some (f 0), some (f 1), ..., some (f (n-1))`, in that order: each
sender observes its replies in exactly the order the receiver pushed
them into that sender's private queue. -/
theorem c4_round_trip_per_sender (R : Type) (f : Nat → R)
    (n fwdCap replyCap k : Nat) (evs : List REv) (s : RSys R)
    (h : RSys.run f n fwdCap replyCap (RSys.init R k) evs = some s)
    (sid : Nat) (sd : RSender R) (hsd : s.senders[sid]? = some sd)
    (hdone : sd.waiting = false) (hall : sd.next = n) :
    sd.got = (List.range n).map (fun j => some (f j)) := by
  obtain ⟨-, -, hmain⟩ :=
    RSys.rinv_run R f n fwdCap replyCap evs _ s (RSys.rinv_init R f k) h
  obtain ⟨q, -, hgot, hwf, -⟩ := hmain sid sd hsd
  obtain ⟨hnext, -, -⟩ := hwf hdone
  have hlen : sd.got.length = n := by omega
  rw [hgot, hlen]

/-- C4 witness: one sender, one message, receiver replying `m + 1`; the
run `send, receiver step, receive` completes the sender with result list
`[some 1]`, matching `map (some ∘ f) (range 1)`. -/
theorem c4_witness :
    (({ next := 1, waiting := false, got := [some 1] } : RSender Nat) :
        RSender Nat).got =
      (List.range 1).map (fun j => some (j + 1)) :=
  c4_round_trip_per_sender Nat (fun m => m + 1) 1 1 1 1
    [.sSend 0, .rxStep, .sRecv 0]
    ⟨[], [[]], [{ next := 1, waiting := false, got := [some 1] }]⟩
    (by decide) 0 { next := 1, waiting := false, got := [some 1] }
    (by decide) (by decide) (by decide)

end ResponseChannel
